import Mathlib

/-!
Verification of the Triple Town repository.

Part 1 embeds the visible prototype (`src/main.js`): a 6×6 grid of natural
numbers where `0` is the empty cell, `handleClick` places a drawn tile on an
empty cell and `mergeTiles` repeatedly scans the grid, collapsing every cell
whose direct orthogonal same-valued neighbourhood reaches size 3.

Part 2 models the missing backend rules engine from the specification (the
React view in `src/unnamed/part_000` only calls it over HTTP): cell values are
integers (`0..7` tiers, `-1` blocker, `-2` marker, `-3` obstruction, `-99`
empty), the resolver performs a connected-component search and cascades, and
the game session validates placements and accumulates score.
-/

set_option maxRecDepth 4096

/-- A board position, `(row, column)`, both below 6. -/
abbrev Pos := Fin 6 × Fin 6

/-! ## Part 1: the prototype from `src/main.js` -/

/-- The prototype grid: `grid[y][x]` is a natural number, `0 = empty`,
`1 = grass`, `2 = bush`, higher values produced by merging. -/
abbrev GridP := Fin 6 → Fin 6 → Nat

/-- The four orthogonal offsets `[[1,0],[-1,0],[0,1],[0,-1]]` scanned by
`mergeTiles` (src/main.js line 43), in source order. -/
def offs : List (Int × Int) := [(1, 0), (-1, 0), (0, 1), (0, -1)]

/-- Whether the integer coordinates `(x, y)` lie on the 6×6 board. -/
def inB (x y : Int) : Prop := 0 ≤ x ∧ x < 6 ∧ 0 ≤ y ∧ y < 6

instance (x y : Int) : Decidable (inB x y) := by unfold inB; infer_instance

/-- `grid[y] && grid[y][x]` of src/main.js line 44: the lookup yields a value
only when both indices are in range, mirroring JavaScript's `undefined` for
out-of-range access (which never equals a number). -/
def cellAt (g : GridP) (x y : Int) : Option Nat :=
  if hy : 0 ≤ y ∧ y < 6 then
    if hx : 0 ≤ x ∧ x < 6 then
      some (g ⟨y.toNat, by omega⟩ ⟨x.toNat, by omega⟩)
    else none
  else none

/-- `sameTiles` built at src/main.js lines 41–46: the scanned cell `(x,y)`
followed by each orthogonal neighbour holding the same value. Coordinates are
kept as integer pairs `(x, y)` exactly as the source pushes them. -/
def sameTiles (g : GridP) (x y : Fin 6) : List (Int × Int) :=
  ((x.val : Int), (y.val : Int)) ::
    offs.filterMap (fun d =>
      if cellAt g ((x.val : Int) + d.1) ((y.val : Int) + d.2) = some (g y x) then
        some ((x.val : Int) + d.1, (y.val : Int) + d.2)
      else none)

/-- `grid[yy][xx] = v` as a functional update (writes outside the board are
vacuous; the source never performs one). -/
def setCell (g : GridP) (x y : Int) (v : Nat) : GridP :=
  fun j i => if (i.val : Int) = x ∧ (j.val : Int) = y then v else g j i

/-- The body of the double loop of `mergeTiles` (src/main.js lines 38–52) at
one cell: skip empty cells; collapse the `sameTiles` group when it has at
least 3 members (clear every member, then write `val + 1` at the scanned
cell); report whether a merge happened. -/
def step (g : GridP) (x y : Fin 6) : GridP × Bool :=
  let val := g y x
  if val = 0 then (g, false)
  else
    let tiles := sameTiles g x y
    if 3 ≤ tiles.length then
      (setCell (tiles.foldl (fun a p => setCell a p.1 p.2 0) g)
        (x.val : Int) (y.val : Int) (val + 1), true)
    else (g, false)

/-- The scan order of the double loop: `y` outer, `x` inner. -/
def passCells : List (Fin 6 × Fin 6) :=
  (List.finRange 6).flatMap fun y => (List.finRange 6).map fun x => (x, y)

/-- Runs `step` over a list of cells, threading the grid and or-ing the
`merged` flag. -/
def passAux : List (Fin 6 × Fin 6) → GridP → Bool → GridP × Bool
  | [], g, m => (g, m)
  | p :: rest, g, m =>
      let s := step g p.1 p.2
      passAux rest s.1 (m || s.2)

/-- One full scan of the grid (the double loop of src/main.js lines 36–54). -/
def mergeTilesPass (g : GridP) : GridP × Bool := passAux passCells g false

/-- The self-recursion of `mergeTiles` (src/main.js line 56), expressed with a
fuel bound: while a pass reports a merge, run another pass. Each merging pass
strictly decreases the number of occupied cells (at most 36), so fuel 37 is
never exhausted. -/
def mergeAux : Nat → GridP → GridP
  | 0, g => g
  | n + 1, g =>
      let r := mergeTilesPass g
      if r.2 then mergeAux n r.1 else r.1

/-- `mergeTiles` of src/main.js lines 34–57. -/
def mergeTiles (g : GridP) : GridP := mergeAux 37 g

/-- `handleClick` of src/main.js lines 26–32, with the random draw of
`getRandomTile` (1 with probability 0.8, else 2) injected as the `tile`
argument: rejected silently when the cell is occupied, otherwise the tile is
written and the merge pass runs. -/
def handleClick (tile : Nat) (g : GridP) (x y : Fin 6) : GridP :=
  if g y x ≠ 0 then g else mergeTiles (setCell g (x.val : Int) (y.val : Int) tile)

/-- Number of occupied (non-zero) cells of a prototype grid. -/
def occupied (g : GridP) : Nat :=
  (Finset.univ.filter fun p : Pos => g p.1 p.2 ≠ 0).card

/-- The set of occupied positions of a prototype grid. -/
def occSet (g : GridP) : Finset Pos :=
  Finset.univ.filter fun p : Pos => g p.1 p.2 ≠ 0


/-! ### Basic lemmas about the prototype scan -/

theorem cellAt_fin (g : GridP) (i j : Fin 6) :
    cellAt g (i.val : Int) (j.val : Int) = some (g j i) := by
  have hi := i.isLt
  have hj := j.isLt
  unfold cellAt
  rw [dif_pos (by omega), dif_pos (by omega)]
  congr 1

theorem cellAt_none (g : GridP) (x y : Int) (h : ¬ inB x y) : cellAt g x y = none := by
  unfold inB at h
  unfold cellAt
  by_cases hy : 0 ≤ y ∧ y < 6
  · rw [dif_pos hy, dif_neg (by omega)]
  · rw [dif_neg hy]

theorem cellAt_some_inB {g : GridP} {x y : Int} {v : Nat}
    (h : cellAt g x y = some v) : inB x y := by
  by_contra hb
  rw [cellAt_none g x y hb] at h
  exact Option.noConfusion h

theorem mem_sameTiles {g : GridP} {x y : Fin 6} {p : Int × Int} :
    p ∈ sameTiles g x y ↔
      p = ((x.val : Int), (y.val : Int)) ∨
      ∃ d ∈ offs,
        cellAt g ((x.val : Int) + d.1) ((y.val : Int) + d.2) = some (g y x) ∧
        p = ((x.val : Int) + d.1, (y.val : Int) + d.2) := by
  simp only [sameTiles, List.mem_cons, List.mem_filterMap,
    Option.ite_none_right_eq_some, Option.some.injEq]
  constructor
  · rintro (h | ⟨d, hd, hc, hp⟩)
    · exact Or.inl h
    · exact Or.inr ⟨d, hd, hc, hp.symm⟩
  · rintro (h | ⟨d, hd, hc, hp⟩)
    · exact Or.inl h
    · exact Or.inr ⟨d, hd, hc, hp.symm⟩

/-- Every coordinate collected into `sameTiles` holds the scanned cell's
value (the origin trivially, neighbours by the guard on line 44). -/
theorem sameTiles_val {g : GridP} {x y : Fin 6} {p : Int × Int}
    (h : p ∈ sameTiles g x y) : cellAt g p.1 p.2 = some (g y x) := by
  rcases mem_sameTiles.mp h with h | ⟨d, _, hc, hp⟩
  · rw [h]; exact cellAt_fin g x y
  · rw [hp]; exact hc

/-- Every coordinate collected into `sameTiles` lies on the board. -/
theorem sameTiles_inB {g : GridP} {x y : Fin 6} {p : Int × Int}
    (h : p ∈ sameTiles g x y) : inB p.1 p.2 :=
  cellAt_some_inB (sameTiles_val h)

theorem inB_toFin {a b : Int} (h : inB a b) :
    ∃ i j : Fin 6, a = (i.val : Int) ∧ b = (j.val : Int) := by
  obtain ⟨h1, h2, h3, h4⟩ := h
  exact ⟨⟨a.toNat, by omega⟩, ⟨b.toNat, by omega⟩, by simp; omega, by simp; omega⟩

/-- The group list built by the scan has no duplicate coordinates: the four
offsets are distinct and none is zero. -/
theorem sameTiles_nodup (g : GridP) (x y : Fin 6) : (sameTiles g x y).Nodup := by
  unfold sameTiles
  refine List.Nodup.cons ?_ ?_
  · intro hmem
    simp only [List.mem_filterMap, Option.ite_none_right_eq_some,
      Option.some.injEq] at hmem
    obtain ⟨d, hd, _, hp⟩ := hmem
    have h1 : (x.val : Int) + d.1 = (x.val : Int) := congrArg Prod.fst hp
    have h2 : (y.val : Int) + d.2 = (y.val : Int) := congrArg Prod.snd hp
    have hd1 : d.1 = 0 := by omega
    have hd2 : d.2 = 0 := by omega
    simp [offs] at hd
    rcases hd with h | h | h | h <;> rw [Prod.ext_iff] at h <;>
      simp [hd1, hd2] at h
  · refine List.Nodup.filterMap ?_ ?_
    · intro a a' b hb hb'
      simp only [Option.mem_def, Option.ite_none_right_eq_some,
        Option.some.injEq] at hb hb'
      obtain ⟨_, hb⟩ := hb
      obtain ⟨_, hb'⟩ := hb'
      rw [← hb'] at hb
      rw [Prod.ext_iff] at hb ⊢
      obtain ⟨e1, e2⟩ := hb
      constructor <;> omega
    · decide

/-! ### The clearing fold of src/main.js line 49 -/

theorem clearFold_not_mem (ts : List (Int × Int)) (g : GridP) (i j : Fin 6)
    (h : ((i.val : Int), (j.val : Int)) ∉ ts) :
    (ts.foldl (fun a p => setCell a p.1 p.2 0) g) j i = g j i := by
  induction ts generalizing g with
  | nil => rfl
  | cons p rest ih =>
    simp only [List.mem_cons, not_or] at h
    rw [List.foldl_cons, ih _ h.2]
    unfold setCell
    rw [if_neg]
    intro hc
    exact h.1 (by rw [Prod.ext_iff]; exact ⟨hc.1, hc.2⟩)

theorem clearFold_mem (ts : List (Int × Int)) (g : GridP) (i j : Fin 6)
    (h : ((i.val : Int), (j.val : Int)) ∈ ts) :
    (ts.foldl (fun a p => setCell a p.1 p.2 0) g) j i = 0 := by
  induction ts generalizing g with
  | nil => exact absurd h (List.not_mem_nil _)
  | cons p rest ih =>
    by_cases hm : ((i.val : Int), (j.val : Int)) ∈ rest
    · rw [List.foldl_cons]; exact ih _ hm
    · have hp : ((i.val : Int), (j.val : Int)) = p := by
        rcases List.mem_cons.mp h with h | h
        · exact h
        · exact absurd h hm
      rw [List.foldl_cons, clearFold_not_mem rest _ i j hm]
      unfold setCell
      rw [if_pos]
      rw [Prod.ext_iff] at hp
      exact ⟨hp.1, hp.2⟩

/-! ### Behaviour of a single scan step -/

theorem step_of_empty {g : GridP} {x y : Fin 6} (h : g y x = 0) :
    step g x y = (g, false) := by
  unfold step
  rw [if_pos h]

theorem step_of_small {g : GridP} {x y : Fin 6}
    (h : (sameTiles g x y).length < 3) : step g x y = (g, false) := by
  unfold step
  by_cases h0 : g y x = 0
  · rw [if_pos h0]
  · rw [if_neg h0, if_neg (by omega)]

theorem step_merge {g : GridP} {x y : Fin 6} (h0 : g y x ≠ 0)
    (h3 : 3 ≤ (sameTiles g x y).length) :
    step g x y =
      (setCell ((sameTiles g x y).foldl (fun a p => setCell a p.1 p.2 0) g)
        (x.val : Int) (y.val : Int) (g y x + 1), true) := by
  unfold step
  rw [if_neg h0, if_pos h3]

theorem step_snd_true {g : GridP} {x y : Fin 6} (h : (step g x y).2 = true) :
    g y x ≠ 0 ∧ 3 ≤ (sameTiles g x y).length := by
  by_cases h0 : g y x = 0
  · rw [step_of_empty h0] at h; exact Bool.noConfusion h
  · by_cases h3 : 3 ≤ (sameTiles g x y).length
    · exact ⟨h0, h3⟩
    · rw [step_of_small (by omega)] at h; exact Bool.noConfusion h

theorem step_snd_false {g : GridP} {x y : Fin 6} (h : (step g x y).2 = false) :
    (step g x y).1 = g := by
  by_cases h0 : g y x = 0
  · rw [step_of_empty h0]
  · by_cases h3 : 3 ≤ (sameTiles g x y).length
    · rw [step_merge h0 h3] at h; exact Bool.noConfusion h
    · rw [step_of_small (by omega)]

theorem finInt_eq {i x : Fin 6} : ((i.val : Int) = (x.val : Int)) ↔ i = x := by
  constructor
  · intro h; exact Fin.ext (by omega)
  · intro h; rw [h]

/-- After a collapsing step the origin holds `val + 1` (src/main.js line 50). -/
theorem step_origin {g : GridP} {x y : Fin 6} (h0 : g y x ≠ 0)
    (h3 : 3 ≤ (sameTiles g x y).length) :
    (step g x y).1 y x = g y x + 1 := by
  rw [step_merge h0 h3]
  dsimp only
  unfold setCell
  rw [if_pos ⟨rfl, rfl⟩]

/-- After a collapsing step every non-origin group member is cleared to 0
(src/main.js line 49). -/
theorem step_cleared {g : GridP} {x y : Fin 6} (h0 : g y x ≠ 0)
    (h3 : 3 ≤ (sameTiles g x y).length) {i j : Fin 6}
    (hm : ((i.val : Int), (j.val : Int)) ∈ sameTiles g x y)
    (hne : ¬(i = x ∧ j = y)) :
    (step g x y).1 j i = 0 := by
  rw [step_merge h0 h3]
  dsimp only
  unfold setCell
  rw [if_neg (by rw [finInt_eq, finInt_eq]; exact hne)]
  exact clearFold_mem _ _ _ _ hm

/-- Cells outside the group are untouched by a collapsing step. -/
theorem step_frame {g : GridP} {x y : Fin 6} (h0 : g y x ≠ 0)
    (h3 : 3 ≤ (sameTiles g x y).length) {i j : Fin 6}
    (hm : ((i.val : Int), (j.val : Int)) ∉ sameTiles g x y) :
    (step g x y).1 j i = g j i := by
  have hne : ¬(i = x ∧ j = y) := by
    rintro ⟨rfl, rfl⟩
    exact hm (List.mem_cons_self _ _)
  rw [step_merge h0 h3]
  dsimp only
  unfold setCell
  rw [if_neg (by rw [finInt_eq, finInt_eq]; exact hne)]
  exact clearFold_not_mem _ _ _ _ hm

/-- A step never turns an empty cell into an occupied one. -/
theorem step_occ_mono {g : GridP} {x y i j : Fin 6}
    (h : (step g x y).1 j i ≠ 0) : g j i ≠ 0 := by
  by_cases hs : (step g x y).2 = true
  · obtain ⟨h0, h3⟩ := step_snd_true hs
    by_cases horig : i = x ∧ j = y
    · obtain ⟨rfl, rfl⟩ := horig
      exact h0
    · by_cases hm : ((i.val : Int), (j.val : Int)) ∈ sameTiles g x y
      · exact absurd (step_cleared h0 h3 hm horig) h
      · rw [step_frame h0 h3 hm] at h
        exact h
  · rw [step_snd_false (Bool.not_eq_true _ ▸ hs)] at h
    exact h

/-- A member of the group names an occupied cell of the grid. -/
theorem sameTiles_occ {g : GridP} {x y : Fin 6} (h0 : g y x ≠ 0) {i j : Fin 6}
    (hm : ((i.val : Int), (j.val : Int)) ∈ sameTiles g x y) : g j i ≠ 0 := by
  have hv := sameTiles_val hm
  rw [cellAt_fin] at hv
  intro hz
  rw [hz] at hv
  exact h0 (Option.some.injEq _ _ ▸ hv).symm

/-! ### Occupancy accounting for a scan step -/

theorem occupied_eq_card (g : GridP) : occupied g = (occSet g).card := rfl

/-- A collapsing step strictly decreases the number of occupied cells: at
least two non-origin members of the group are cleared. -/
theorem step_occupied_lt {g : GridP} {x y : Fin 6}
    (h : (step g x y).2 = true) : occupied (step g x y).1 < occupied g := by
  obtain ⟨h0, h3⟩ := step_snd_true h
  have hnd := sameTiles_nodup g x y
  rcases hts : sameTiles g x y with _ | ⟨a, _ | ⟨b, _ | ⟨c, rest⟩⟩⟩
  · rw [hts] at h3; simp at h3
  · rw [hts] at h3; simp at h3
  · rw [hts] at h3; simp at h3
  have ha : a = ((x.val : Int), (y.val : Int)) := by
    unfold sameTiles at hts
    exact (List.cons.injEq _ _ _ _ ▸ hts : _ ∧ _).1.symm
  rw [hts] at hnd
  have hab : a ≠ b := by
    intro e; rw [e] at hnd
    exact (List.nodup_cons.mp hnd).1 (List.mem_cons_self _ _)
  have hac : a ≠ c := by
    intro e; rw [e] at hnd
    exact (List.nodup_cons.mp hnd).1 (List.mem_cons.mpr (Or.inr (List.mem_cons_self _ _)))
  have hbc : b ≠ c := by
    intro e
    have h2 := (List.nodup_cons.mp hnd).2
    rw [e] at h2
    exact (List.nodup_cons.mp h2).1 (List.mem_cons_self _ _)
  have hbm : b ∈ sameTiles g x y := by rw [hts]; simp
  have hcm : c ∈ sameTiles g x y := by rw [hts]; simp
  obtain ⟨i0, j0, hb1, hb2⟩ := inB_toFin (sameTiles_inB hbm)
  obtain ⟨i1, j1, hc1, hc2⟩ := inB_toFin (sameTiles_inB hcm)
  have hbeq : b = ((i0.val : Int), (j0.val : Int)) := by
    rw [Prod.ext_iff]; exact ⟨hb1, hb2⟩
  have hceq : c = ((i1.val : Int), (j1.val : Int)) := by
    rw [Prod.ext_iff]; exact ⟨hc1, hc2⟩
  have hbno : ¬(i0 = x ∧ j0 = y) := by
    rintro ⟨e1, e2⟩
    exact hab (by rw [ha, hbeq, e1, e2])
  have hcno : ¬(i1 = x ∧ j1 = y) := by
    rintro ⟨e1, e2⟩
    exact hac (by rw [ha, hceq, e1, e2])
  have hP01 : ((j0, i0) : Pos) ≠ (j1, i1) := by
    intro e
    rw [Prod.ext_iff] at e
    have ej : j0 = j1 := e.1
    have ei : i0 = i1 := e.2
    exact hbc (by rw [hbeq, hceq, ei, ej])
  have hb0 : g j0 i0 ≠ 0 := sameTiles_occ h0 (hbeq ▸ hbm)
  have hc0 : g j1 i1 ≠ 0 := sameTiles_occ h0 (hceq ▸ hcm)
  have hbclr : (step g x y).1 j0 i0 = 0 := step_cleared h0 h3 (hbeq ▸ hbm) hbno
  have hcclr : (step g x y).1 j1 i1 = 0 := step_cleared h0 h3 (hceq ▸ hcm) hcno
  have hsub : occSet (step g x y).1 ⊆ ((occSet g).erase (j0, i0)).erase (j1, i1) := by
    intro q hq
    rw [occSet, Finset.mem_filter] at hq
    have hq2 := hq.2
    rw [Finset.mem_erase, Finset.mem_erase]
    refine ⟨?_, ?_, ?_⟩
    · intro e; rw [e] at hq2; exact hq2 hcclr
    · intro e; rw [e] at hq2; exact hq2 hbclr
    · rw [occSet, Finset.mem_filter]
      exact ⟨Finset.mem_univ _, step_occ_mono hq2⟩
  have hcard := Finset.card_le_card hsub
  have hP0m : ((j0, i0) : Pos) ∈ occSet g := by
    rw [occSet, Finset.mem_filter]; exact ⟨Finset.mem_univ _, hb0⟩
  have hP1m : ((j1, i1) : Pos) ∈ (occSet g).erase (j0, i0) := by
    refine Finset.mem_erase.mpr ⟨Ne.symm hP01, ?_⟩
    rw [occSet, Finset.mem_filter]; exact ⟨Finset.mem_univ _, hc0⟩
  rw [Finset.card_erase_of_mem hP1m, Finset.card_erase_of_mem hP0m] at hcard
  have hpos : 0 < ((occSet g).erase (j0, i0)).card :=
    Finset.card_pos.mpr ⟨(j1, i1), hP1m⟩
  rw [Finset.card_erase_of_mem hP0m] at hpos
  rw [occupied_eq_card, occupied_eq_card]
  omega

theorem step_occupied_le (g : GridP) (x y : Fin 6) :
    occupied (step g x y).1 ≤ occupied g := by
  by_cases h : (step g x y).2 = true
  · exact le_of_lt (step_occupied_lt h)
  · rw [step_snd_false (Bool.not_eq_true _ ▸ h)]

/-! ### The full scan and the cascade -/

theorem passAux_false {l : List (Fin 6 × Fin 6)} {g : GridP} {m : Bool}
    (h : (passAux l g m).2 = false) :
    (passAux l g m).1 = g ∧ m = false ∧ ∀ p ∈ l, (step g p.1 p.2).2 = false := by
  induction l generalizing g m with
  | nil =>
    exact ⟨rfl, h, fun p hp => absurd hp (List.not_mem_nil p)⟩
  | cons p rest ih =>
    simp only [passAux] at h ⊢
    obtain ⟨h1, h2, h3⟩ := ih h
    have hm : m = false ∧ (step g p.1 p.2).2 = false := by
      constructor
      · revert h2; cases m <;> simp
      · revert h2; cases (step g p.1 p.2).2 <;> simp
    have hsg : (step g p.1 p.2).1 = g := step_snd_false hm.2
    rw [hsg] at h1 h3 ⊢
    refine ⟨h1, hm.1, fun q hq => ?_⟩
    rcases List.mem_cons.mp hq with e | e
    · rw [e]; exact hm.2
    · exact h3 q e

theorem passAux_occupied_le (l : List (Fin 6 × Fin 6)) (g : GridP) (m : Bool) :
    occupied (passAux l g m).1 ≤ occupied g := by
  induction l generalizing g m with
  | nil => exact le_refl _
  | cons p rest ih =>
    simp only [passAux]
    exact le_trans (ih _ _) (step_occupied_le g p.1 p.2)

theorem passAux_true_lt {l : List (Fin 6 × Fin 6)} {g : GridP}
    (h : (passAux l g false).2 = true) :
    occupied (passAux l g false).1 < occupied g := by
  induction l generalizing g with
  | nil => simp [passAux] at h
  | cons p rest ih =>
    simp only [passAux] at h ⊢
    by_cases hs : (step g p.1 p.2).2 = true
    · exact lt_of_le_of_lt (passAux_occupied_le _ _ _) (step_occupied_lt hs)
    · have hs' : (step g p.1 p.2).2 = false := by
        revert hs; cases (step g p.1 p.2).2 <;> simp
      rw [step_snd_false hs', hs'] at h ⊢
      simp only [Bool.or_false] at h ⊢
      exact ih h

theorem occupied_le_36 (g : GridP) : occupied g ≤ 36 := by
  have h := Finset.card_filter_le (Finset.univ : Finset Pos)
    (fun p => g p.1 p.2 ≠ 0)
  simpa using h

theorem mergeAux_fix {n : Nat} {g : GridP} (h : occupied g < n) :
    mergeTilesPass (mergeAux n g) = (mergeAux n g, false) := by
  induction n generalizing g with
  | zero => omega
  | succ n ih =>
    simp only [mergeAux]
    by_cases hr : (mergeTilesPass g).2 = true
    · rw [if_pos hr]
      apply ih
      have hlt : occupied (mergeTilesPass g).1 < occupied g := passAux_true_lt hr
      omega
    · rw [if_neg hr]
      have hr' : (mergeTilesPass g).2 = false := by
        revert hr; cases (mergeTilesPass g).2 <;> simp
      have h1 : (mergeTilesPass g).1 = g := (passAux_false hr').1
      rw [h1]
      rw [Prod.ext_iff]
      exact ⟨h1, hr'⟩

theorem mergeAux_congr {m n : Nat} {g : GridP} (hm : occupied g < m)
    (hn : occupied g < n) : mergeAux m g = mergeAux n g := by
  induction m generalizing n g with
  | zero => omega
  | succ m ih =>
    cases n with
    | zero => omega
    | succ n =>
      simp only [mergeAux]
      by_cases hr : (mergeTilesPass g).2 = true
      · rw [if_pos hr, if_pos hr]
        have hlt : occupied (mergeTilesPass g).1 < occupied g := passAux_true_lt hr
        exact ih (by omega) (by omega)
      · rw [if_neg hr, if_neg hr]

/-- The cascade of src/main.js always reaches a grid on which a further pass
finds no merge. -/
theorem mergeTiles_fix (g : GridP) :
    mergeTilesPass (mergeTiles g) = (mergeTiles g, false) :=
  mergeAux_fix (by have := occupied_le_36 g; omega)

/-- Any fuel beyond 36 rounds gives the same result: the cascade stabilises
after finitely many passes. -/
theorem mergeAux_stable {n : Nat} (h : 36 < n) (g : GridP) :
    mergeAux n g = mergeTiles g :=
  mergeAux_congr (lt_of_le_of_lt (occupied_le_36 g) h)
    (by have := occupied_le_36 g; omega)

theorem mem_passCells : ∀ a b : Fin 6, (a, b) ∈ passCells := by decide

/-- At the cascade's fixed point no occupied cell has a direct-neighbour
group of size 3 or more. -/
theorem mergeTiles_nogroup (g : GridP) (x y : Fin 6)
    (h : mergeTiles g y x ≠ 0) :
    (sameTiles (mergeTiles g) x y).length < 3 := by
  have hfix := mergeTiles_fix g
  have hfalse : (passAux passCells (mergeTiles g) false).2 = false := by
    have : (mergeTilesPass (mergeTiles g)).2 = false := by rw [hfix]
    exact this
  have hsteps := (passAux_false hfalse).2.2
  have hstep := hsteps (x, y) (mem_passCells x y)
  by_contra hge
  have h3 : 3 ≤ (sameTiles (mergeTiles g) x y).length := by omega
  rw [step_merge h h3] at hstep
  exact Bool.noConfusion hstep

theorem passAux_occ_mono {l : List (Fin 6 × Fin 6)} {g : GridP} {m : Bool}
    {i j : Fin 6} (h : g j i = 0) : (passAux l g m).1 j i = 0 := by
  induction l generalizing g m with
  | nil => exact h
  | cons p rest ih =>
    simp only [passAux]
    apply ih
    by_contra hne
    exact (step_occ_mono hne) h

/-- The whole cascade never turns an empty cell into an occupied one. -/
theorem mergeAux_occ_mono {n : Nat} {g : GridP} {i j : Fin 6}
    (h : g j i = 0) : mergeAux n g j i = 0 := by
  induction n generalizing g with
  | zero => exact h
  | succ n ih =>
    simp only [mergeAux]
    by_cases hr : (mergeTilesPass g).2 = true
    · rw [if_pos hr]
      exact ih (passAux_occ_mono h)
    · rw [if_neg hr]
      exact passAux_occ_mono h

/-! ## Part 2: the backend rules engine, modelled from the specification

The engine behind `POST /game/move` is not present in the repository's
sources; only its caller (the React view) is. The definitions below carry the
marker `Modelled from the spec:` and follow §3, §4.2–§4.4 and §6 of the
specification. -/

/-- The empty-cell marker of the external encoding (spec §6). -/
def EMPTY : Int := -99

/-- The backend grid: 6×6 integers in the §6 encoding. -/
abbrev GridE := Fin 6 → Fin 6 → Int

/-- Modelled from the spec: a cell value is merge-eligible when it is a Tier
item (levels 0..7, §3/§6) or a converted-blocker marker (`-2`, §4.3);
blockers, obstructions and empty cells never merge. -/
def mergeableV (v : Int) : Prop := (0 ≤ v ∧ v ≤ 7) ∨ v = -2

instance (v : Int) : Decidable (mergeableV v) := by unfold mergeableV; infer_instance

/-- Modelled from the spec: the merge product — the next higher Tier level
capped at the maximum level 7 (§4.2); a marker group collapses to the lowest
Tier item 0 (§4.3). -/
def nextVal (v : Int) : Int := if v = -2 then 0 else min (v + 1) 7

/-- Orthogonal adjacency of two board positions. -/
def adjB (p q : Pos) : Prop :=
  ((p.1.val : Int) - (q.1.val : Int)).natAbs
    + ((p.2.val : Int) - (q.2.val : Int)).natAbs = 1

instance (p q : Pos) : Decidable (adjB p q) := by unfold adjB; infer_instance

/-- One expansion of the worklist flood fill (spec §9): add every cell
orthogonally adjacent to the set found so far that holds the same value. -/
def expandStep {α : Type} [DecidableEq α] (g : Fin 6 → Fin 6 → α)
    (s : Finset Pos) : Finset Pos :=
  s ∪ Finset.univ.filter fun q => ∃ p ∈ s, adjB p q ∧ g p.1 p.2 = g q.1 q.2

/-- The flood fill, run until its fixed point (at most 36 expansions are ever
needed on a 6×6 board). -/
def componentAux {α : Type} [DecidableEq α] (g : Fin 6 → Fin 6 → α) :
    Nat → Finset Pos → Finset Pos
  | 0, s => s
  | n + 1, s =>
      let t := expandStep g s
      if t = s then s else componentAux g n t

/-- Modelled from the spec: the merge group (§4.2 and glossary) — the
connected component of cells holding the origin's value, found by component
search from the origin. -/
def component {α : Type} [DecidableEq α] (g : Fin 6 → Fin 6 → α) (o : Pos) :
    Finset Pos :=
  componentAux g 36 {o}

/-- The set of occupied (non-Empty) positions of a backend grid. -/
def occSetI (g : GridE) : Finset Pos :=
  Finset.univ.filter fun p : Pos => g p.1 p.2 ≠ EMPTY

/-- Number of occupied cells of a backend grid. -/
def occupiedI (g : GridE) : Nat := (occSetI g).card

/-- Modelled from the spec (§4.2): collapse a group — every coordinate of the
group is cleared to Empty except the origin, which receives the merge
product. -/
def collapseG (g : GridE) (grp : Finset Pos) (o : Pos) (v : Int) : GridE :=
  fun j i => if (j, i) = o then v else if (j, i) ∈ grp then EMPTY else g j i

/-- Modelled from the spec (§4.2): the resolver. Starting at the modified
cell, find the merge group; if it has fewer than 3 members return an empty
result, otherwise collapse it and re-invoke at the origin to catch cascades.
Returns the final grid, the set of merged positions (every coordinate cleared
or leveled across the cascade) and the total number of removed cells
(group size − 1 per collapse, summed). Each collapse strictly decreases the
occupied-cell count (at most 36), so fuel 37 is never exhausted. -/
def resolveAux : Nat → GridE → Fin 6 → Fin 6 → GridE × Finset Pos × Nat
  | 0, g, _, _ => (g, ∅, 0)
  | n + 1, g, x, y =>
      let v := g y x
      if mergeableV v then
        let grp := component g (y, x)
        if 3 ≤ grp.card then
          let g1 := collapseG g grp (y, x) (nextVal v)
          let r := resolveAux n g1 x y
          (r.1, grp ∪ r.2.1, (grp.card - 1) + r.2.2)
        else (g, ∅, 0)
      else (g, ∅, 0)

/-- Modelled from the spec (§4.2): `resolve(grid, originX, originY)`. -/
def resolve (g : GridE) (x y : Fin 6) : GridE × Finset Pos × Nat :=
  resolveAux 37 g x y

/-- Functional write into a backend grid. -/
def setCellI (g : GridE) (x y : Fin 6) (v : Int) : GridE :=
  fun j i => if j = y ∧ i = x then v else g j i

/-- The in-bounds orthogonal neighbours of a position (spec §4.1
`neighbors4`). -/
def nbrs (p : Pos) : List Pos :=
  offs.filterMap fun d =>
    if h : 0 ≤ (p.2.val : Int) + d.1 ∧ (p.2.val : Int) + d.1 < 6 ∧
           0 ≤ (p.1.val : Int) + d.2 ∧ (p.1.val : Int) + d.2 < 6 then
      some (⟨((p.1.val : Int) + d.2).toNat, by omega⟩,
            ⟨((p.2.val : Int) + d.1).toNat, by omega⟩)
    else none

/-- Modelled from the spec (§4.3): the enclosure pass — every live Blocker
(`-1`) whose in-bounds orthogonal neighbours are all occupied converts in
place to a marker (`-2`). One simultaneous pass is its own fixed point:
conversions keep cells occupied, so they can never produce a new enclosure. -/
def enclosurePass (g : GridE) : GridE :=
  fun j i =>
    if g j i = -1 ∧ ∀ q ∈ nbrs (j, i), g q.1 q.2 ≠ EMPTY then -2 else g j i

/-- Modelled from the spec (§4.1): `isFull`, true iff no coordinate is
Empty. -/
def isFull (g : GridE) : Bool := decide (∀ j i : Fin 6, g j i ≠ EMPTY)

/-- Modelled from the spec (§3, §4.4): a game session. -/
structure Session where
  grid : GridE
  score : Nat
  moves : Nat
  nextItem : Int
  gameOver : Bool
deriving DecidableEq

/-- Modelled from the spec (§4.4, §6): the result of a placement request —
a rejection carrying a human-readable reason, or an acceptance carrying the
merged-position set and the score delta. -/
inductive MoveOutcome where
  | rejected (message : String)
  | accepted (mergedPositions : Finset Pos) (scoreDelta : Nat)
deriving DecidableEq

/-- Modelled from the spec (§4.4): `placePiece(x, y)`, with the random draw
of the new `nextItem` injected as the `draw` argument. Preconditions in §4.4
order (session active, coordinates in bounds, target Empty); on failure a
rejection with the §4.4 reason and no mutation; on success the queued item is
written, the enclosure pass and the resolver run, score and move counter are
updated and the terminal flag is recomputed. -/
def placePiece (s : Session) (x y : Int) (draw : Int) : Session × MoveOutcome :=
  if s.gameOver then (s, MoveOutcome.rejected "game over")
  else if h : 0 ≤ x ∧ x < 6 ∧ 0 ≤ y ∧ y < 6 then
    if s.grid ⟨y.toNat, by omega⟩ ⟨x.toNat, by omega⟩ ≠ EMPTY then
      (s, MoveOutcome.rejected "cell occupied")
    else
      let xf : Fin 6 := ⟨x.toNat, by omega⟩
      let yf : Fin 6 := ⟨y.toNat, by omega⟩
      let g2 := enclosurePass (setCellI s.grid xf yf s.nextItem)
      let r := resolve g2 xf yf
      let delta := 10 * r.2.2
      ({ grid := r.1, score := s.score + delta, moves := s.moves + 1,
         nextItem := draw, gameOver := isFull r.1 },
       MoveOutcome.accepted r.2.1 delta)
  else (s, MoveOutcome.rejected "out of bounds")

/-- The score contribution of one outcome. -/
def deltaOf : MoveOutcome → Nat
  | MoveOutcome.rejected _ => 0
  | MoveOutcome.accepted _ d => d

/-- A whole game: feed a list of `(x, y, draw)` requests to a session. -/
def playMoves : Session → List (Int × Int × Int) → Session × List MoveOutcome
  | s, [] => (s, [])
  | s, m :: rest =>
      let r := placePiece s m.1 m.2.1 m.2.2
      let t := playMoves r.1 rest
      (t.1, r.2 :: t.2)

/-! ### Flood-fill and collapse lemmas -/

theorem subset_componentAux {α : Type} [DecidableEq α] (g : Fin 6 → Fin 6 → α)
    (n : Nat) (s : Finset Pos) : s ⊆ componentAux g n s := by
  induction n generalizing s with
  | zero => exact Finset.Subset.refl s
  | succ n ih =>
    simp only [componentAux]
    by_cases h : expandStep g s = s
    · rw [if_pos h]
    · rw [if_neg h]
      exact Finset.Subset.trans Finset.subset_union_left (ih _)

theorem mem_component_self {α : Type} [DecidableEq α] (g : Fin 6 → Fin 6 → α)
    (o : Pos) : o ∈ component g o :=
  subset_componentAux g 36 {o} (Finset.mem_singleton_self o)

theorem componentAux_val {α : Type} [DecidableEq α] {g : Fin 6 → Fin 6 → α}
    {v : α} {n : Nat} {s : Finset Pos} (h : ∀ p ∈ s, g p.1 p.2 = v) :
    ∀ p ∈ componentAux g n s, g p.1 p.2 = v := by
  induction n generalizing s with
  | zero => exact h
  | succ n ih =>
    simp only [componentAux]
    by_cases he : expandStep g s = s
    · rw [if_pos he]; exact h
    · rw [if_neg he]
      apply ih
      intro p hp
      rcases Finset.mem_union.mp hp with hp | hp
      · exact h p hp
      · obtain ⟨q, hq, _, heq⟩ := (Finset.mem_filter.mp hp).2
        rw [← heq]
        exact h q hq

theorem component_val {α : Type} [DecidableEq α] {g : Fin 6 → Fin 6 → α}
    {o q : Pos} (h : q ∈ component g o) : g q.1 q.2 = g o.1 o.2 :=
  componentAux_val (fun p hp => by rw [Finset.mem_singleton.mp hp]) q h

theorem mergeable_ne_empty {v : Int} (h : mergeableV v) : v ≠ EMPTY := by
  unfold mergeableV at h
  unfold EMPTY
  rcases h with ⟨h1, _⟩ | h1 <;> omega

theorem nextVal_ne_empty {v : Int} (h : mergeableV v) : nextVal v ≠ EMPTY := by
  unfold nextVal EMPTY
  by_cases hv : v = -2
  · rw [if_pos hv]; omega
  · rw [if_neg hv]
    rcases h with ⟨h1, _⟩ | h1
    · rw [min_def]; split_ifs <;> omega
    · exact absurd h1 hv

theorem collapse_origin (g : GridE) (grp : Finset Pos) (o : Pos) (v : Int) :
    collapseG g grp o v o.1 o.2 = v := by
  unfold collapseG
  rw [Prod.mk.eta, if_pos rfl]

theorem occSetI_collapse {g : GridE} {grp : Finset Pos} {o : Pos} {v : Int}
    (ho : o ∈ grp) (hocc : ∀ p ∈ grp, g p.1 p.2 ≠ EMPTY) (hv : v ≠ EMPTY) :
    occSetI (collapseG g grp o v) = occSetI g \ grp.erase o := by
  ext p
  simp only [occSetI, Finset.mem_filter, Finset.mem_univ, true_and,
    Finset.mem_sdiff, Finset.mem_erase, not_and, ne_eq]
  unfold collapseG
  rw [Prod.mk.eta]
  by_cases hpo : p = o
  · rw [if_pos hpo, hpo]
    constructor
    · intro _; exact ⟨hocc o ho, fun hne => absurd rfl hne⟩
    · intro _; exact hv
  · rw [if_neg hpo]
    by_cases hpg : p ∈ grp
    · rw [if_pos hpg]
      constructor
      · intro h; exact absurd rfl h
      · intro h; exact absurd hpg (h.2 hpo)
    · rw [if_neg hpg]
      constructor
      · intro h; exact ⟨h, fun _ => hpg⟩
      · intro h; exact h.1

theorem collapse_card {g : GridE} {grp : Finset Pos} {o : Pos} {v : Int}
    (ho : o ∈ grp) (hocc : ∀ p ∈ grp, g p.1 p.2 ≠ EMPTY) (hv : v ≠ EMPTY) :
    occupiedI (collapseG g grp o v) + grp.card = occupiedI g + 1 := by
  have hset := occSetI_collapse ho hocc hv
  have hsub : grp.erase o ⊆ occSetI g := by
    intro p hp
    have hm := Finset.mem_of_mem_erase hp
    rw [occSetI, Finset.mem_filter]
    exact ⟨Finset.mem_univ _, hocc p hm⟩
  have hcard : (occSetI g \ grp.erase o).card
      = (occSetI g).card - (grp.erase o).card := Finset.card_sdiff hsub
  have hle : (grp.erase o).card ≤ (occSetI g).card := Finset.card_le_card hsub
  have he : (grp.erase o).card = grp.card - 1 := Finset.card_erase_of_mem ho
  have hg1 : 0 < grp.card := Finset.card_pos.mpr ⟨o, ho⟩
  unfold occupiedI
  rw [hset, hcard, he]
  rw [he] at hle
  omega

theorem collapse_subset {g : GridE} {grp : Finset Pos} {o : Pos} {v : Int}
    (ho : o ∈ grp) (hocc : ∀ p ∈ grp, g p.1 p.2 ≠ EMPTY) (hv : v ≠ EMPTY) :
    occSetI (collapseG g grp o v) ⊆ occSetI g := by
  rw [occSetI_collapse ho hocc hv]
  exact Finset.sdiff_subset

/-! ### Resolver accounting -/

theorem collapse_origin_occ {g : GridE} {grp : Finset Pos} {o : Pos} {v : Int}
    (hv : v ≠ EMPTY) : o ∈ occSetI (collapseG g grp o v) := by
  rw [occSetI, Finset.mem_filter]
  refine ⟨Finset.mem_univ _, ?_⟩
  rw [collapse_origin]
  exact hv

theorem component_occ {g : GridE} {x y : Fin 6} (hm : mergeableV (g y x)) :
    ∀ p ∈ component g (y, x), g p.1 p.2 ≠ EMPTY := by
  intro p hp
  rw [component_val hp]
  exact mergeable_ne_empty hm

/-- Removed cells across the cascade account exactly for the drop in the
occupied-cell count. -/
theorem resolveAux_removed (n : Nat) (g : GridE) (x y : Fin 6) :
    occupiedI (resolveAux n g x y).1 + (resolveAux n g x y).2.2 = occupiedI g := by
  induction n generalizing g with
  | zero => simp [resolveAux]
  | succ n ih =>
    simp only [resolveAux]
    by_cases hm : mergeableV (g y x)
    · rw [if_pos hm]
      by_cases h3 : 3 ≤ (component g (y, x)).card
      · rw [if_pos h3]
        dsimp only
        have hcol := collapse_card (mem_component_self g (y, x))
          (component_occ hm) (nextVal_ne_empty hm)
        have hr := ih (collapseG g (component g (y, x)) (y, x) (nextVal (g y x)))
        omega
      · rw [if_neg h3]; simp
    · rw [if_neg hm]; simp

theorem resolveAux_occ_subset (n : Nat) (g : GridE) (x y : Fin 6) :
    occSetI (resolveAux n g x y).1 ⊆ occSetI g := by
  induction n generalizing g with
  | zero => exact Finset.Subset.refl _
  | succ n ih =>
    simp only [resolveAux]
    by_cases hm : mergeableV (g y x)
    · rw [if_pos hm]
      by_cases h3 : 3 ≤ (component g (y, x)).card
      · rw [if_pos h3]
        dsimp only
        exact Finset.Subset.trans
          (ih (collapseG g (component g (y, x)) (y, x) (nextVal (g y x))))
          (collapse_subset (mem_component_self g (y, x))
            (component_occ hm) (nextVal_ne_empty hm))
      · rw [if_neg h3]
    · rw [if_neg hm]

theorem resolveAux_zero (n : Nat) (g : GridE) (x y : Fin 6)
    (h : (resolveAux n g x y).2.2 = 0) :
    (resolveAux n g x y).1 = g ∧ (resolveAux n g x y).2.1 = ∅ := by
  cases n with
  | zero => exact ⟨rfl, rfl⟩
  | succ n =>
    simp only [resolveAux] at h ⊢
    by_cases hm : mergeableV (g y x)
    · rw [if_pos hm] at h ⊢
      by_cases h3 : 3 ≤ (component g (y, x)).card
      · rw [if_pos h3] at h ⊢
        dsimp only at h
        omega
      · rw [if_neg h3] at h ⊢
        exact ⟨rfl, rfl⟩
    · rw [if_neg hm] at h ⊢
      exact ⟨rfl, rfl⟩

/-- The merged-position set of the cascade is the origin together with every
cell the cascade removed (the origin is reported as leveled even though it is
not removed). -/
theorem resolveAux_positions (n : Nat) (g : GridE) (x y : Fin 6) :
    ((resolveAux n g x y).2.2 = 0 → (resolveAux n g x y).2.1 = ∅) ∧
    ((resolveAux n g x y).2.2 ≠ 0 →
      (resolveAux n g x y).2.1
        = insert (y, x) (occSetI g \ occSetI (resolveAux n g x y).1) ∧
      (y, x) ∈ occSetI (resolveAux n g x y).1) := by
  induction n generalizing g with
  | zero => exact ⟨fun _ => rfl, fun h => absurd rfl h⟩
  | succ n ih =>
    simp only [resolveAux]
    by_cases hm : mergeableV (g y x)
    · rw [if_pos hm]
      by_cases h3 : 3 ≤ (component g (y, x)).card
      · rw [if_pos h3]
        dsimp only
        have ho := mem_component_self g (y, x)
        have hocc := component_occ hm
        have hv := nextVal_ne_empty hm
        have hsetI := occSetI_collapse ho hocc hv
        have hgrpsub : component g (y, x) ⊆ occSetI g := by
          intro p hp
          rw [occSetI, Finset.mem_filter]
          exact ⟨Finset.mem_univ _, hocc p hp⟩
        constructor
        · intro h0
          exfalso
          have hc3 := h3
          omega
        · intro _
          by_cases hr : (resolveAux n
              (collapseG g (component g (y, x)) (y, x) (nextVal (g y x))) x y).2.2 = 0
          · obtain ⟨heg, hep⟩ := resolveAux_zero n _ x y hr
            rw [hep, Finset.union_empty, heg]
            constructor
            · rw [hsetI, Finset.sdiff_sdiff_self_left,
                Finset.inter_eq_right.mpr
                  (Finset.Subset.trans (Finset.erase_subset _ _) hgrpsub)]
              exact (Finset.insert_erase ho).symm
            · exact collapse_origin_occ hv
          · obtain ⟨hp1, hp2⟩ :=
              (ih (collapseG g (component g (y, x)) (y, x) (nextVal (g y x)))).2 hr
            refine ⟨?_, hp2⟩
            rw [hp1]
            ext p
            have hF2 := resolveAux_occ_subset n
              (collapseG g (component g (y, x)) (y, x) (nextVal (g y x))) x y
            simp only [Finset.mem_union, Finset.mem_insert, Finset.mem_sdiff]
            constructor
            · rintro (hpg | hpo | ⟨hpg1, hpr⟩)
              · by_cases hpo : p = (y, x)
                · exact Or.inl hpo
                · refine Or.inr ⟨hgrpsub hpg, fun hpr => ?_⟩
                  have hpg1 := hF2 hpr
                  rw [hsetI, Finset.mem_sdiff] at hpg1
                  exact hpg1.2 (Finset.mem_erase.mpr ⟨hpo, hpg⟩)
              · exact Or.inl hpo
              · rw [hsetI, Finset.mem_sdiff] at hpg1
                exact Or.inr ⟨hpg1.1, hpr⟩
            · rintro (hpo | ⟨hpg, hpr⟩)
              · exact Or.inl (hpo ▸ ho)
              · by_cases hpgrp : p ∈ component g (y, x)
                · exact Or.inl hpgrp
                · refine Or.inr (Or.inr ⟨?_, hpr⟩)
                  rw [hsetI, Finset.mem_sdiff]
                  exact ⟨hpg, fun hpe => hpgrp (Finset.mem_of_mem_erase hpe)⟩
      · rw [if_neg h3]
        exact ⟨fun _ => rfl, fun h => absurd rfl h⟩
    · rw [if_neg hm]
      exact ⟨fun _ => rfl, fun h => absurd rfl h⟩

theorem resolve_removed (g : GridE) (x y : Fin 6) :
    occupiedI (resolve g x y).1 + (resolve g x y).2.2 = occupiedI g :=
  resolveAux_removed 37 g x y

theorem resolve_empty (g : GridE) (x y : Fin 6)
    (h : (resolve g x y).2.2 = 0) : (resolve g x y).2.1 = ∅ :=
  (resolveAux_positions 37 g x y).1 h

/-- Reported merged positions exceed the removed-cell count by exactly one
(the leveled origin) whenever any merge occurred. -/
theorem resolve_positions_card (g : GridE) (x y : Fin 6)
    (h : (resolve g x y).2.2 ≠ 0) :
    (resolve g x y).2.1.card = (resolve g x y).2.2 + 1 := by
  obtain ⟨hp1, hp2⟩ := (resolveAux_positions 37 g x y).2 h
  unfold resolve
  rw [hp1]
  have hnotmem : (y, x) ∉ occSetI g \ occSetI (resolveAux 37 g x y).1 := by
    rw [Finset.mem_sdiff]
    rintro ⟨_, hno⟩
    exact hno hp2
  rw [Finset.card_insert_of_not_mem hnotmem]
  have hsub := resolveAux_occ_subset 37 g x y
  rw [Finset.card_sdiff hsub]
  have hrem := resolveAux_removed 37 g x y
  have hle := Finset.card_le_card hsub
  unfold occupiedI at hrem
  omega

/-! ### Session-level lemmas -/

/-- The grid as it stands after the placement write and the enclosure pass,
before merge resolution. -/
def afterWrite (s : Session) (xf yf : Fin 6) : GridE :=
  enclosurePass (setCellI s.grid xf yf s.nextItem)

theorem placePiece_gameOver {s : Session} {x y d : Int} (h : s.gameOver = true) :
    placePiece s x y d = (s, MoveOutcome.rejected "game over") := by
  unfold placePiece
  rw [if_pos h]

theorem placePiece_oob {s : Session} {x y d : Int} (h1 : s.gameOver = false)
    (h2 : ¬(0 ≤ x ∧ x < 6 ∧ 0 ≤ y ∧ y < 6)) :
    placePiece s x y d = (s, MoveOutcome.rejected "out of bounds") := by
  unfold placePiece
  rw [if_neg (by rw [h1]; exact Bool.false_ne_true), dif_neg h2]

theorem placePiece_occupied {s : Session} {xf yf : Fin 6} {d : Int}
    (h1 : s.gameOver = false) (h2 : s.grid yf xf ≠ EMPTY) :
    placePiece s (xf.val : Int) (yf.val : Int) d
      = (s, MoveOutcome.rejected "cell occupied") := by
  have hx := xf.isLt
  have hy := yf.isLt
  unfold placePiece
  rw [if_neg (by rw [h1]; exact Bool.false_ne_true),
    dif_pos (by refine ⟨by omega, by omega, by omega, by omega⟩)]
  simp only [Int.toNat_natCast, Fin.eta]
  rw [if_pos h2]

theorem placePiece_accept {s : Session} {xf yf : Fin 6} {d : Int}
    (h1 : s.gameOver = false) (h2 : s.grid yf xf = EMPTY) :
    placePiece s (xf.val : Int) (yf.val : Int) d
      = ({ grid := (resolve (afterWrite s xf yf) xf yf).1,
           score := s.score + 10 * (resolve (afterWrite s xf yf) xf yf).2.2,
           moves := s.moves + 1, nextItem := d,
           gameOver := isFull (resolve (afterWrite s xf yf) xf yf).1 },
         MoveOutcome.accepted (resolve (afterWrite s xf yf) xf yf).2.1
           (10 * (resolve (afterWrite s xf yf) xf yf).2.2)) := by
  have hx := xf.isLt
  have hy := yf.isLt
  unfold placePiece afterWrite
  rw [if_neg (by rw [h1]; exact Bool.false_ne_true),
    dif_pos (by refine ⟨by omega, by omega, by omega, by omega⟩)]
  simp only [Int.toNat_natCast, Fin.eta]
  rw [if_neg (fun hn => hn h2)]

theorem placePiece_score (s : Session) (x y d : Int) :
    (placePiece s x y d).1.score = s.score + deltaOf (placePiece s x y d).2 := by
  unfold placePiece
  split_ifs <;> simp [deltaOf]

/-- Cumulative score: the session's score after any request sequence is the
starting score plus the sum of the accepted placements' deltas. -/
theorem playMoves_score (s : Session) (ms : List (Int × Int × Int)) :
    (playMoves s ms).1.score
      = s.score + ((playMoves s ms).2.map deltaOf).sum := by
  induction ms generalizing s with
  | nil => simp [playMoves]
  | cons m rest ih =>
    simp only [playMoves, List.map_cons, List.sum_cons]
    have h1 := placePiece_score s m.1 m.2.1 m.2.2
    have h2 := ih (placePiece s m.1 m.2.1 m.2.2).1
    omega

/-! ### The view-layer encoding (`src/unnamed/part_000`) -/

/-- The `name` field of `ITEM_TYPES` (src/unnamed/part_000 lines 9–22), as
looked up by `getTileContent`: `none` models JavaScript's `undefined` for a
key outside the table (the emoji and color fields are display-only and
omitted). -/
def itemName : Int → Option String
  | 0 => some "grass"
  | 1 => some "bush"
  | 2 => some "tree"
  | 3 => some "house"
  | 4 => some "mansion"
  | 5 => some "castle"
  | 6 => some "crystal"
  | 7 => some "monument"
  | -1 => some "bear"
  | -2 => some "tombstone"
  | -3 => some "rock"
  | -99 => some "empty"
  | _ => none

/-- `isEmpty` of the view (src/unnamed/part_000 line 168): a cell renders as
placeable exactly when its value is `-99`. -/
def isEmptyCell (cell : Int) : Bool := cell == -99

/-- Whether a grid button accepts a click (src/unnamed/part_000 line 174:
`disabled={!isEmpty || gameState.game_over || loading}`). -/
def clickable (cell : Int) (gameOver loading : Bool) : Bool :=
  isEmptyCell cell && !gameOver && !loading

/-! ## Concrete boards used as witnesses and counterexamples -/

/-- Two adjacent grass tiles and nothing else (spec §8 Scenario A). -/
def gTwoP : GridP := fun j i => if j = 0 ∧ (i = 0 ∨ i = 1) then 1 else 0

/-- A horizontal line of four equal tiles in row 0. -/
def gFourP : GridP := fun j i => if j = 0 ∧ i.val < 4 then 1 else 0

/-- A three-tile L-shaped group far from the top-left corner. -/
def gFarP : GridP :=
  fun j i => if (j = 3 ∧ (i = 3 ∨ i = 4)) ∨ (j = 4 ∧ i = 3) then 1 else 0

/-- A three-tile L-shaped group at the top of the prototype's progression
(eight tier names, so 8 on its 1-based scale). -/
def gMaxP : GridP :=
  fun j i => if (j = 0 ∧ (i = 0 ∨ i = 1)) ∨ (j = 1 ∧ i = 0) then 8 else 0

/-- Scenario-B backend grid: grass at (0,0) and (0,1). -/
def gScB : GridE := fun j i => if j = 0 ∧ (i = 0 ∨ i = 1) then 0 else EMPTY

/-- Scenario-B backend session. -/
def sScB : Session :=
  { grid := gScB, score := 0, moves := 0, nextItem := 0, gameOver := false }

/-! ## The claims -/

/-- C1: a group merges iff its size is at least 3 — a scan step leaves the
grid unchanged when the group found around the cell has fewer than 3 members;
with 3 or more members it merges and clears the non-origin members; a step
only reports a merge for a group of size ≥ 3; and two adjacent equal cells
with no third (Scenario A) survive the whole merge pass unchanged. -/
theorem claim_C1 :
    (∀ (g : GridP) (x y : Fin 6), (sameTiles g x y).length < 3 → (step g x y).1 = g) ∧
    (∀ (g : GridP) (x y : Fin 6), g y x ≠ 0 → 3 ≤ (sameTiles g x y).length →
      (step g x y).2 = true ∧
      ∀ i j : Fin 6, ((i.val : Int), (j.val : Int)) ∈ sameTiles g x y →
        ¬(i = x ∧ j = y) → (step g x y).1 j i = 0) ∧
    (∀ (g : GridP) (x y : Fin 6), (step g x y).2 = true →
      3 ≤ (sameTiles g x y).length) ∧
    mergeTiles gTwoP = gTwoP := by
  refine ⟨?_, ?_, ?_, by decide⟩
  · intro g x y h
    rw [step_of_small h]
  · intro g x y h0 h3
    refine ⟨?_, fun i j hm hne => step_cleared h0 h3 hm hne⟩
    rw [step_merge h0 h3]
  · intro g x y h
    exact (step_snd_true h).2

theorem claim_C1_witness : (step gTwoP 0 0).1 = gTwoP :=
  claim_C1.1 gTwoP 0 0 (by decide)

/-- C2 counterexample: on a row of four equal tiles, the cell (x=3,y=0) is
reachable from the origin (x=1,y=0) through chains of equal orthogonal
neighbours, yet it is not in the group the scan builds there, and the full
merge pass leaves it untouched while the rest of its component merges. -/
theorem claim_C2_counterexample :
    ((0, 3) : Pos) ∈ component gFourP ((0 : Fin 6), (1 : Fin 6)) ∧
    ((3 : Int), (0 : Int)) ∉ sameTiles gFourP 1 0 ∧
    mergeTiles gFourP 0 1 = 2 ∧ mergeTiles gFourP 0 3 = 1 ∧ gFourP 0 3 = 1 := by
  decide

/-- C2 amended: the group inspected at a cell is exactly the cell itself plus
its directly orthogonally adjacent in-bounds cells of equal value — not the
full connected component. -/
theorem claim_C2 : ∀ (g : GridP) (x y i j : Fin 6),
    ((i.val : Int), (j.val : Int)) ∈ sameTiles g x y ↔
      ((i = x ∧ j = y) ∨ (adjB (j, i) (y, x) ∧ g j i = g y x)) := by
  intro g x y i j
  rw [mem_sameTiles]
  constructor
  · rintro (h | ⟨d, hd, hc, hp⟩)
    · rw [Prod.ext_iff] at h
      exact Or.inl ⟨finInt_eq.mp h.1, finInt_eq.mp h.2⟩
    · rw [Prod.ext_iff] at hp
      have hp1 : (i.val : Int) = (x.val : Int) + d.1 := hp.1
      have hp2 : (j.val : Int) = (y.val : Int) + d.2 := hp.2
      refine Or.inr ⟨?_, ?_⟩
      · unfold adjB
        dsimp only
        simp only [offs, List.mem_cons, List.not_mem_nil, or_false] at hd
        rcases hd with rfl | rfl | rfl | rfl <;> dsimp only at hp1 hp2 <;> omega
      · rw [← hp1, ← hp2] at hc
        rw [cellAt_fin] at hc
        exact Option.some.inj hc
  · rintro (⟨rfl, rfl⟩ | ⟨hadj, hval⟩)
    · exact Or.inl rfl
    · unfold adjB at hadj
      dsimp only at hadj
      have hcases :
          ((i.val : Int) - (x.val : Int) = 1 ∧ (j.val : Int) - (y.val : Int) = 0) ∨
          ((i.val : Int) - (x.val : Int) = -1 ∧ (j.val : Int) - (y.val : Int) = 0) ∨
          ((i.val : Int) - (x.val : Int) = 0 ∧ (j.val : Int) - (y.val : Int) = 1) ∨
          ((i.val : Int) - (x.val : Int) = 0 ∧ (j.val : Int) - (y.val : Int) = -1) := by
        omega
      refine Or.inr ⟨((i.val : Int) - (x.val : Int), (j.val : Int) - (y.val : Int)),
        ?_, ?_, ?_⟩
      · simp only [offs, List.mem_cons, List.not_mem_nil, or_false]
        rcases hcases with ⟨e1, e2⟩ | ⟨e1, e2⟩ | ⟨e1, e2⟩ | ⟨e1, e2⟩
        · exact Or.inl (by rw [Prod.ext_iff]; exact ⟨e1, e2⟩)
        · exact Or.inr (Or.inl (by rw [Prod.ext_iff]; exact ⟨e1, e2⟩))
        · exact Or.inr (Or.inr (Or.inl (by rw [Prod.ext_iff]; exact ⟨e1, e2⟩)))
        · exact Or.inr (Or.inr (Or.inr (by rw [Prod.ext_iff]; exact ⟨e1, e2⟩)))
      · have e1 : (x.val : Int) + ((i.val : Int) - (x.val : Int)) = (i.val : Int) := by
          omega
        have e2 : (y.val : Int) + ((j.val : Int) - (y.val : Int)) = (j.val : Int) := by
          omega
        dsimp only
        rw [e1, e2, cellAt_fin, hval]
      · rw [Prod.ext_iff]
        dsimp only
        constructor <;> omega

/-- C3: the cascade terminates — a merging step has a group of size ≥ 3 and
strictly decreases the occupied-cell count; the cascade's result is a fixed
point of the pass; any fuel beyond 36 rounds changes nothing; and at the
fixed point no occupied cell still has a qualifying group of size ≥ 3. -/
theorem claim_C3 : ∀ g : GridP,
    (∀ x y : Fin 6, (step g x y).2 = true →
      3 ≤ (sameTiles g x y).length ∧ occupied (step g x y).1 < occupied g) ∧
    mergeTilesPass (mergeTiles g) = (mergeTiles g, false) ∧
    (∀ n : Nat, 36 < n → mergeAux n g = mergeTiles g) ∧
    (∀ x y : Fin 6, mergeTiles g y x ≠ 0 →
      (sameTiles (mergeTiles g) x y).length < 3) := by
  intro g
  refine ⟨fun x y h => ⟨(step_snd_true h).2, step_occupied_lt h⟩,
    mergeTiles_fix g, fun n hn => mergeAux_stable hn g,
    fun x y h => mergeTiles_nogroup g x y h⟩

theorem claim_C3_witness : (sameTiles (mergeTiles gTwoP) 0 0).length < 3 :=
  (claim_C3 gTwoP).2.2.2 0 0 (by decide)

/-- C6 counterexample: placing a tile at the empty corner (0,0) resolves the
L-shaped group at (3,3)/(4,3)/(3,4) even though that group is disjoint from
the placement coordinate (it is not in the placed cell's component): its
origin levels up to 2 and its other members are cleared. -/
theorem claim_C6_counterexample :
    ((3, 3) : Pos) ∉ component (setCell gFarP 0 0 2) ((0 : Fin 6), (0 : Fin 6)) ∧
    gFarP 3 4 = 1 ∧ handleClick 2 gFarP 0 0 3 3 = 2 ∧
    handleClick 2 gFarP 0 0 3 4 = 0 ∧ handleClick 2 gFarP 0 0 4 3 = 0 := by
  decide

/-- C6 amended: the merge pass scans the whole board and resolves every
qualifying group regardless of the placement coordinate — after an accepted
click no occupied cell anywhere retains a group of size ≥ 3. -/
theorem claim_C6 : ∀ (tile : Nat) (g : GridP) (x y : Fin 6), g y x = 0 →
    ∀ i j : Fin 6, handleClick tile g x y j i ≠ 0 →
      (sameTiles (handleClick tile g x y) i j).length < 3 := by
  intro tile g x y h i j hi
  have he : handleClick tile g x y
      = mergeTiles (setCell g (x.val : Int) (y.val : Int) tile) := by
    unfold handleClick
    rw [if_neg (by simp [h])]
  rw [he] at hi ⊢
  exact mergeTiles_nogroup _ i j hi

theorem claim_C6_witness :
    (sameTiles (handleClick 1 (fun _ _ => 0) 0 0) 0 0).length < 3 :=
  claim_C6 1 (fun _ _ => 0) 0 0 rfl 0 0 (by decide)

/-- C7 counterexample: a group of three tiles already at the top of the
progression merges to 9 — the origin's value exceeds the highest tier
instead of staying capped at the maximum. -/
theorem claim_C7_counterexample : gMaxP 0 0 = 8 ∧ mergeTiles gMaxP 0 0 = 9 := by
  decide

/-- C7 amended: every non-origin group coordinate is cleared to empty and the
origin is set to `val + 1` unconditionally — there is no cap at a maximum
level. -/
theorem claim_C7 : ∀ (g : GridP) (x y : Fin 6), g y x ≠ 0 →
    3 ≤ (sameTiles g x y).length →
    (step g x y).1 y x = g y x + 1 ∧
    ∀ i j : Fin 6, ((i.val : Int), (j.val : Int)) ∈ sameTiles g x y →
      ¬(i = x ∧ j = y) → (step g x y).1 j i = 0 :=
  fun _ _ _ h0 h3 =>
    ⟨step_origin h0 h3, fun _ _ hm hne => step_cleared h0 h3 hm hne⟩

theorem claim_C7_witness : (step gMaxP 0 0).1 0 0 = gMaxP 0 0 + 1 :=
  (claim_C7 gMaxP 0 0 (by decide) (by decide)).1

/-- C9: the neighbour inspection is bounds-safe — every coordinate collected
into a group lies on the board, and an out-of-range lookup yields no value,
so it can never match a cell's value. -/
theorem claim_C9 :
    (∀ (g : GridP) (x y : Fin 6) (p : Int × Int),
      p ∈ sameTiles g x y → inB p.1 p.2) ∧
    (∀ (g : GridP) (x y : Int), ¬ inB x y → cellAt g x y = none) :=
  ⟨fun _ _ _ _ h => sameTiles_inB h, fun g x y h => cellAt_none g x y h⟩

theorem claim_C9_witness : inB (1 : Int) (0 : Int) ∧ cellAt gTwoP 6 0 = none :=
  ⟨claim_C9.1 gTwoP 0 0 (1, 0) (by decide), claim_C9.2 gTwoP 6 0 (by decide)⟩

/-- C10: the merge pass never turns an empty cell into an occupied one — a
cell that is 0 before `mergeTiles` is 0 afterwards, so the occupied set never
grows. -/
theorem claim_C10 :
    (∀ (g : GridP) (i j : Fin 6), g j i = 0 → mergeTiles g j i = 0) ∧
    (∀ g : GridP, occSet (mergeTiles g) ⊆ occSet g) := by
  refine ⟨fun g i j h => mergeAux_occ_mono h, ?_⟩
  intro g p hp
  rw [occSet, Finset.mem_filter] at hp ⊢
  exact ⟨Finset.mem_univ _, fun h0 => hp.2 (mergeAux_occ_mono h0)⟩

theorem claim_C10_witness : mergeTiles gTwoP 5 5 = 0 :=
  claim_C10.1 gTwoP 5 5 (by decide)

/-- C5: a placement request failing a precondition is rejected with its
reason and mutates nothing — the prototype's `handleClick` returns the grid
unchanged on an occupied cell, and the modelled session operation returns
the untouched session with the §4.4 reason for a terminal session, an
out-of-bounds coordinate, or an occupied target. -/
theorem claim_C5 :
    (∀ (tile : Nat) (g : GridP) (x y : Fin 6), g y x ≠ 0 →
      handleClick tile g x y = g) ∧
    (∀ (s : Session) (x y d : Int), s.gameOver = true →
      placePiece s x y d = (s, MoveOutcome.rejected "game over")) ∧
    (∀ (s : Session) (x y d : Int), s.gameOver = false →
      ¬(0 ≤ x ∧ x < 6 ∧ 0 ≤ y ∧ y < 6) →
      placePiece s x y d = (s, MoveOutcome.rejected "out of bounds")) ∧
    (∀ (s : Session) (xf yf : Fin 6) (d : Int), s.gameOver = false →
      s.grid yf xf ≠ EMPTY →
      placePiece s (xf.val : Int) (yf.val : Int) d
        = (s, MoveOutcome.rejected "cell occupied")) := by
  refine ⟨?_, fun s x y d h => placePiece_gameOver h,
    fun s x y d h1 h2 => placePiece_oob h1 h2,
    fun s xf yf d h1 h2 => placePiece_occupied h1 h2⟩
  intro tile g x y h
  unfold handleClick
  rw [if_pos h]

theorem claim_C5_witness :
    placePiece sScB (((0 : Fin 6).val : Int)) (((0 : Fin 6).val : Int)) 7
      = (sScB, MoveOutcome.rejected "cell occupied") :=
  claim_C5.2.2.2 sScB 0 0 7 rfl (by decide)

/-- C4 counterexample: completing Scenario B's three-grass group reports
three merged positions but awards only 20 points — the reported position
count times 10 does not agree with the score delta. -/
theorem claim_C4_counterexample :
    (placePiece sScB 2 0 5).2
      = MoveOutcome.accepted {((0 : Fin 6), (0 : Fin 6)), (0, 1), (0, 2)} 20 ∧
    ({((0 : Fin 6), (0 : Fin 6)), (0, 1), (0, 2)} : Finset Pos).card * 10 ≠ 20 := by
  decide

/-- C4 amended: the delta of an accepted placement is 10 times the number of
cells the cascade removed (exactly the drop in the occupied-cell count);
cumulative score is the starting score plus the sum of the accepted deltas;
and the reported merged-position count exceeds the removed-cell count by
exactly one — the leveled origin — whenever a merge occurred, so it is
`delta / 10 + 1`, not `delta / 10`. -/
theorem claim_C4 :
    (∀ (s : Session) (xf yf : Fin 6) (d : Int), s.gameOver = false →
      s.grid yf xf = EMPTY →
      (placePiece s (xf.val : Int) (yf.val : Int) d).2
          = MoveOutcome.accepted (resolve (afterWrite s xf yf) xf yf).2.1
              (10 * (resolve (afterWrite s xf yf) xf yf).2.2) ∧
      (placePiece s (xf.val : Int) (yf.val : Int) d).1.score
          = s.score + 10 * (resolve (afterWrite s xf yf) xf yf).2.2 ∧
      occupiedI (resolve (afterWrite s xf yf) xf yf).1
          + (resolve (afterWrite s xf yf) xf yf).2.2
          = occupiedI (afterWrite s xf yf) ∧
      ((resolve (afterWrite s xf yf) xf yf).2.2 = 0 →
        (resolve (afterWrite s xf yf) xf yf).2.1 = ∅) ∧
      ((resolve (afterWrite s xf yf) xf yf).2.2 ≠ 0 →
        (resolve (afterWrite s xf yf) xf yf).2.1.card
          = (resolve (afterWrite s xf yf) xf yf).2.2 + 1)) ∧
    (∀ (s : Session) (ms : List (Int × Int × Int)),
      (playMoves s ms).1.score = s.score + ((playMoves s ms).2.map deltaOf).sum) := by
  refine ⟨?_, playMoves_score⟩
  intro s xf yf d h1 h2
  rw [placePiece_accept h1 h2]
  exact ⟨rfl, rfl, resolve_removed _ _ _, resolve_empty _ _ _,
    resolve_positions_card _ _ _⟩

theorem claim_C4_witness :
    (placePiece sScB (((2 : Fin 6).val : Int)) (((0 : Fin 6).val : Int)) 5).1.score
      = sScB.score + 10 * (resolve (afterWrite sScB 2 0) 2 0).2.2 :=
  (claim_C4.1 sScB 2 0 5 rfl (by decide)).2.1

/-- C8: the external cell-value encoding — tiers 0..7 from grass up to
monument, -1 the blocker, -2 the converted-blocker marker, -3 the
obstruction, -99 empty — and a cell renders as placeable exactly when its
value is -99 (on an active, non-loading board). -/
theorem claim_C8 :
    itemName 0 = some "grass" ∧ itemName 1 = some "bush" ∧
    itemName 2 = some "tree" ∧ itemName 3 = some "house" ∧
    itemName 4 = some "mansion" ∧ itemName 5 = some "castle" ∧
    itemName 6 = some "crystal" ∧ itemName 7 = some "monument" ∧
    itemName (-1) = some "bear" ∧ itemName (-2) = some "tombstone" ∧
    itemName (-3) = some "rock" ∧ itemName (-99) = some "empty" ∧
    (∀ cell : Int, isEmptyCell cell = true ↔ cell = -99) ∧
    (∀ (cell : Int) (go lo : Bool),
      clickable cell go lo = true ↔ (cell = -99 ∧ go = false ∧ lo = false)) := by
  refine ⟨rfl, rfl, rfl, rfl, rfl, rfl, rfl, rfl, rfl, rfl, rfl, rfl, ?_, ?_⟩
  · intro cell
    simp [isEmptyCell]
  · intro cell go lo
    simp [clickable, isEmptyCell, and_assoc]
